/-
Verification of the shot-chart aggregation and rendering pipeline of
`nba_shot_charts.py`.

The embedding models, in exact rational arithmetic:
  * the shot data model (one record per attempted field goal);
  * the zone aggregation of `create_shot_chart` (pandas groupby on
    (SHOT_ZONE_BASIC, SHOT_ZONE_AREA) computing FGA, FGM, FG_PCT, the
    left merge of target onto league averages producing DIFF, and the
    left merge of DIFF back onto each target shot);
  * matplotlib hexagonal binning as invoked by the two `plt.hexbin`
    calls: the grid spans extent (-250, 250, 422.5, -47.5) with
    `gridsize = nx` columns, `ny = int(nx / sqrt(3))` rows, an x padding
    of 1e-9 * (xmax - xmin), two interleaved lattices, each point scored
    against the nearest centers via `np.round` (half to even) and
    `np.floor`, assigned to lattice 1 when d1 < d2 and otherwise to
    lattice 2, and dropped when the chosen indices fall out of range;
    a cell is emitted iff it received at least one point, with its C
    values reduced by `np.sum` (attempt counts) or `np.mean` (DIFF);
  * the final per-cell frame: percentile rank of `freq`
    (`rank(pct=True)`, average ranks for ties) and the sizing lambda;
  * the rendering surface: the fixed court shapes of `draw_court` and a
    scatter marker per cell whose color index is the DIFF value pushed
    through the colormap normalization clamped to [-0.10, 0.10].

Missing-value behaviour is modelled with `Option`: a pandas left merge
that finds no match yields `none` (NaN), `plt.hexbin` drops points whose
C value is `none` (`delete_masked_points`), and the whole pipeline
returns `none` where the Python code raises (row-count 0 forces a
ZeroDivisionError when computing `sy`; mismatched column lengths raise
in the DataFrame assembly).
-/
import Mathlib

/-- One attempted field goal, as one row of the season shot table. -/
structure ShotRecord where
  PLAYER_NAME : String
  TEAM_NAME : String
  SHOT_ZONE_BASIC : String
  SHOT_ZONE_AREA : String
  LOC_X : ℚ
  LOC_Y : ℚ
  SHOT_MADE_FLAG : ℚ
  SHOT_ATTEMPTED_FLAG : ℚ
deriving DecidableEq, Repr

/-- The `target_column` argument of `create_shot_chart`: grouping is by
player name or by team name. -/
inductive TargetColumn where
  | PLAYER_NAME
  | TEAM_NAME
deriving DecidableEq, Repr

/-- Reading the target column of one row. -/
def TargetColumn.get : TargetColumn → ShotRecord → String
  | .PLAYER_NAME, s => s.PLAYER_NAME
  | .TEAM_NAME, s => s.TEAM_NAME

/-- The groupby key `['SHOT_ZONE_BASIC', 'SHOT_ZONE_AREA']` of a row. -/
def shotZone (s : ShotRecord) : String × String :=
  (s.SHOT_ZONE_BASIC, s.SHOT_ZONE_AREA)

/-- A dataset is well formed when every row's SHOT_ATTEMPTED_FLAG is 1,
which is how the source data is shaped (one row per attempt). -/
def wellFormed (shots : List ShotRecord) : Prop :=
  ∀ s ∈ shots, s.SHOT_ATTEMPTED_FLAG = 1

/-- One row of a zone aggregation frame (league or target average). -/
structure ZoneRow where
  SHOT_ZONE_BASIC : String
  SHOT_ZONE_AREA : String
  FGA : ℚ
  FGM : ℚ
  FG_PCT : ℚ
deriving DecidableEq, Repr

/-- The rows of `shots` carrying the zone key `k`. -/
def zone_group (shots : List ShotRecord) (k : String × String) : List ShotRecord :=
  shots.filter fun s => decide (shotZone s = k)

/-- The aggregation row of one zone group: FGA is the sum of
SHOT_ATTEMPTED_FLAG, FGM the sum of SHOT_MADE_FLAG, FG_PCT the mean of
SHOT_MADE_FLAG over the group. -/
def zoneRowOf (shots : List ShotRecord) (k : String × String) : ZoneRow :=
  { SHOT_ZONE_BASIC := k.1
    SHOT_ZONE_AREA := k.2
    FGA := ((zone_group shots k).map ShotRecord.SHOT_ATTEMPTED_FLAG).sum
    FGM := ((zone_group shots k).map ShotRecord.SHOT_MADE_FLAG).sum
    FG_PCT := ((zone_group shots k).map ShotRecord.SHOT_MADE_FLAG).sum
                / ((zone_group shots k).length : ℚ) }

/-- The zone aggregation frame: one row per zone key occurring in
`shots` (pandas groupby emits one group per distinct key; group order
never influences the values computed downstream, which are looked up by
key). -/
def zone_agg (shots : List ShotRecord) : List ZoneRow :=
  ((shots.map shotZone).dedup).map (zoneRowOf shots)

/-- The `season_df.loc[season_df[target_column] == target_column_name]`
filter. -/
def target_df (shots : List ShotRecord) (tc : TargetColumn) (name : String) :
    List ShotRecord :=
  shots.filter fun s => decide (tc.get s = name)

/-- One row of the merged target frame: the target zone stats together
with `DIFF = FG_PCT - FG_PCT_league_avg`; `none` models the NaN a left
merge produces when the league frame has no row for the key. -/
structure DiffRow where
  SHOT_ZONE_BASIC : String
  SHOT_ZONE_AREA : String
  FG_PCT : ℚ
  DIFF : Option ℚ
deriving DecidableEq, Repr

/-- The merged row for target zone key `k`: target stats over `tdf`
joined with the league row of the same key out of `zone_agg shots`. -/
def diffRowOf (shots tdf : List ShotRecord) (k : String × String) : DiffRow :=
  { SHOT_ZONE_BASIC := k.1
    SHOT_ZONE_AREA := k.2
    FG_PCT := (zoneRowOf tdf k).FG_PCT
    DIFF := ((zone_agg shots).find? fun l =>
              decide ((l.SHOT_ZONE_BASIC, l.SHOT_ZONE_AREA) = k)).map
            fun l => (zoneRowOf tdf k).FG_PCT - l.FG_PCT }

/-- The `target_avg` frame after the first merge: the target zone
aggregation left-joined onto the league aggregation by zone key, with
the DIFF column. -/
def target_avg_rows (shots : List ShotRecord) (tc : TargetColumn) (name : String) :
    List DiffRow :=
  (((target_df shots tc name).map shotZone).dedup).map
    (diffRowOf shots (target_df shots tc name))

/-- The second merge, row by row: the DIFF value an individual target
shot receives when `target_df` is left-joined with `target_avg` on the
zone key (zone keys are unique in `target_avg`, so the join is a
lookup). -/
def shot_diff (shots : List ShotRecord) (tc : TargetColumn) (name : String)
    (s : ShotRecord) : Option ℚ :=
  (((target_avg_rows shots tc name).find? fun r =>
      decide ((r.SHOT_ZONE_BASIC, r.SHOT_ZONE_AREA) = shotZone s)).bind
    DiffRow.DIFF)

/-- The derived row count of the hexagon grid, `int(nx / sqrt(3))`:
truncating `nx / sqrt(3)` yields the largest natural `ny` with
`ny ≤ nx / sqrt(3)`, i.e. with `3 * ny ^ 2 ≤ nx ^ 2` (`sqrt(3)` is
irrational, so the float computation has no half-way cases to get
wrong at these magnitudes). -/
def gridNy (nx : ℕ) : ℕ := Nat.findGreatest (fun m => 3 * m ^ 2 ≤ nx ^ 2) nx

/-- The hexbin grid geometry: column and row counts, padded x origin
and cell steps (matplotlib pads only the x limits, by
`1e-9 * (xmax - xmin)`; `sy` is negative because the extent is passed
with the y limits inverted: `extent=(-250, 250, 422.5, -47.5)`). -/
structure HexGrid where
  nx : ℕ
  ny : ℕ
  xmin : ℚ
  sx : ℚ
  ymin : ℚ
  sy : ℚ
deriving DecidableEq, Repr

/-- The grid `plt.hexbin` builds for `gridsize = nx` over the court
extent. -/
def court_grid (nx : ℕ) : HexGrid :=
  { nx := nx
    ny := gridNy nx
    xmin := -250 - 1 / 2000000
    sx := ((250 + 1 / 2000000) - (-250 - 1 / 2000000)) / (nx : ℚ)
    ymin := 845 / 2
    sy := (-95 / 2 - 845 / 2) / (gridNy nx : ℚ) }

/-- `np.round`: round half to even. -/
def roundHalfEven (q : ℚ) : ℤ :=
  if q - ⌊q⌋ < 1 / 2 then ⌊q⌋
  else if 1 / 2 < q - ⌊q⌋ then ⌊q⌋ + 1
  else if ⌊q⌋ % 2 = 0 then ⌊q⌋ else ⌊q⌋ + 1

/-- The hexbin assignment of one point: scale into grid units, compare
the distance to the nearest lattice-1 center (`np.round`) against the
nearest lattice-2 center (`np.floor` plus a half step), pick lattice 1
iff `d1 < d2`, and keep the point only when the picked indices are in
range (`0 ≤ ix1 < nx + 1`, `0 ≤ iy1 < ny + 1` for lattice 1;
`0 ≤ ix2 < nx`, `0 ≤ iy2 < ny` for lattice 2). -/
def hexAssign (g : HexGrid) (px py : ℚ) : Option (Bool × ℤ × ℤ) :=
  let ix := (px - g.xmin) / g.sx
  let iy := (py - g.ymin) / g.sy
  let ix1 := roundHalfEven ix
  let iy1 := roundHalfEven iy
  let ix2 := ⌊ix⌋
  let iy2 := ⌊iy⌋
  let d1 := (ix - ix1) ^ 2 + 3 * (iy - iy1) ^ 2
  let d2 := (ix - ix2 - 1 / 2) ^ 2 + 3 * (iy - iy2 - 1 / 2) ^ 2
  if d1 < d2 then
    if 0 ≤ ix1 ∧ ix1 < (g.nx : ℤ) + 1 ∧ 0 ≤ iy1 ∧ iy1 < (g.ny : ℤ) + 1 then
      some (true, ix1, iy1)
    else none
  else
    if 0 ≤ ix2 ∧ ix2 < (g.nx : ℤ) ∧ 0 ≤ iy2 ∧ iy2 < (g.ny : ℤ) then
      some (false, ix2, iy2)
    else none

/-- The accumulation cells in the order matplotlib enumerates them:
all of lattice 1 (row-major), then all of lattice 2. -/
def cellIndexList (g : HexGrid) : List (Bool × ℤ × ℤ) :=
  ((List.range (g.nx + 1)).flatMap fun (i : ℕ) =>
    (List.range (g.ny + 1)).map fun (j : ℕ) => (true, (i : ℤ), (j : ℤ)))
  ++ ((List.range g.nx).flatMap fun (i : ℕ) =>
    (List.range g.ny).map fun (j : ℕ) => (false, (i : ℤ), (j : ℤ)))

/-- The offset (center position, in data coordinates) of a cell:
lattice 2 sits half a step into both directions. -/
def cellCenter (g : HexGrid) (c : Bool × ℤ × ℤ) : ℚ × ℚ :=
  if c.1 then (g.xmin + c.2.1 * g.sx, g.ymin + c.2.2 * g.sy)
  else (g.xmin + (c.2.1 + 1 / 2) * g.sx, g.ymin + (c.2.2 + 1 / 2) * g.sy)

/-- `np.sum` over the C values accumulated in a cell. -/
def npSum (l : List ℚ) : ℚ := l.sum

/-- `np.mean` over the C values accumulated in a cell. -/
def npMean (l : List ℚ) : ℚ := l.sum / (l.length : ℚ)

/-- One `plt.hexbin(x, y, C=..., reduce_C_function=...)` call on points
`(x, y, C)`: every cell that accumulated at least one C value (with
`mincnt` defaulting to 0, a cell survives iff `len(vals) > 0`) yields
its offset and reduced value, in cell enumeration order — exactly what
`get_offsets()` / `get_array()` later return. -/
def hexbin (g : HexGrid) (pts : List (ℚ × ℚ × ℚ)) (reduce : List ℚ → ℚ) :
    List ((ℚ × ℚ) × ℚ) :=
  (cellIndexList g).filterMap fun c =>
    if ((pts.filter fun p => decide (hexAssign g p.1 p.2.1 = some c)).map
        fun p => p.2.2).length = 0 then none
    else some (cellCenter g c,
      reduce ((pts.filter fun p => decide (hexAssign g p.1 p.2.1 = some c)).map
        fun p => p.2.2))

/-- One row of the final `my_df` frame: one occupied hex cell. -/
structure HexCell where
  loc_x : ℚ
  loc_y : ℚ
  difference : ℚ
  freq : ℚ
  percentile : ℚ
  sizing : ℚ
deriving DecidableEq, Repr

/-- `my_df['freq'].rank(pct=True)`: the average-of-tied-positions rank
of `v` inside `vals`, divided by the row count. -/
def pct_rank (vals : List ℚ) (v : ℚ) : ℚ :=
  (((vals.filter fun u => decide (u < v)).length : ℚ)
      + (((vals.filter fun u => decide (u = v)).length : ℚ) + 1) / 2)
    / (vals.length : ℚ)

/-- The sizing lambda applied to a percentile. -/
def sizing_rule (pct : ℚ) : ℚ :=
  if pct ≤ 2 / 5 then 2
  else if pct ≤ 3 / 4 then 40
  else if pct ≤ 9 / 10 then 100
  else 200

/-- Assembling `my_df` out of the raw per-cell rows
`((loc_x, loc_y), difference, freq)`: percentile rank of the freq
column, then the sizing column. -/
def finalize (rows : List ((ℚ × ℚ) × ℚ × ℚ)) : List HexCell :=
  rows.map fun r =>
    { loc_x := r.1.1
      loc_y := r.1.2
      difference := r.2.1
      freq := r.2.2
      percentile := pct_rank (rows.map fun t => t.2.2) r.2.2
      sizing := sizing_rule (pct_rank (rows.map fun t => t.2.2) r.2.2) }

/-- The `(x, y, C)` triples of the first hexbin call
(`C=target_df.SHOT_ATTEMPTED_FLAG`), one per target shot. -/
def shot_points (shots : List ShotRecord) (tc : TargetColumn) (name : String) :
    List (ℚ × ℚ × ℚ) :=
  (target_df shots tc name).map fun s =>
    (s.LOC_X, s.LOC_Y, s.SHOT_ATTEMPTED_FLAG)

/-- The `(x, y, C)` triples of the second hexbin call
(`C=target_df.DIFF`): `delete_masked_points` drops the rows whose DIFF
is missing before binning. -/
def diff_points (shots : List ShotRecord) (tc : TargetColumn) (name : String) :
    List (ℚ × ℚ × ℚ) :=
  (target_df shots tc name).filterMap fun s =>
    (shot_diff shots tc name s).map fun d => (s.LOC_X, s.LOC_Y, d)

/-- The aggregation half of `create_shot_chart` (lines 148-212): zone
averages, DIFF merge, the two hexbin calls and the final frame.
Returns `none` exactly where the Python run raises: when
`int(nx / sqrt(3))` is 0 the first hexbin call divides by zero
computing `sy`, and when the two hexbin outputs disagree in length the
column assignments on `my_df` raise a length mismatch. -/
def create_shot_chart_cells (shots : List ShotRecord) (tc : TargetColumn)
    (name : String) (nx : ℕ) : Option (List HexCell) :=
  if gridNy nx = 0 then none else
  if (hexbin (court_grid nx) (shot_points shots tc name) npSum).length
      = (hexbin (court_grid nx) (diff_points shots tc name) npMean).length then
    some (finalize
      (((hexbin (court_grid nx) (shot_points shots tc name) npSum).zip
          (hexbin (court_grid nx) (diff_points shots tc name) npMean)).map
        fun p => (p.1.1, p.2.2, p.1.2)))
  else none

/-- A primitive court shape descriptor (matplotlib patch). -/
inductive CourtShape where
  | circle (center : ℚ × ℚ) (radius : ℚ)
  | rect (corner : ℚ × ℚ) (width height : ℚ)
  | arc (center : ℚ × ℚ) (width height theta1 theta2 : ℚ)
deriving DecidableEq, Repr

/-- The fixed patches `draw_court` adds to the axes, in order: hoop,
backboard, paint outer box, both free-throw arcs, restricted-area arc,
both corner-three lines, the three-point arc, and — when requested —
the outer boundary rectangle. -/
def draw_court (outer_lines : Bool) : List CourtShape :=
  [CourtShape.circle (0, 0) (15 / 2),
   CourtShape.rect (-30, -15 / 2) 60 (-1),
   CourtShape.rect (-80, -95 / 2) 160 190,
   CourtShape.arc (0, 285 / 2) 120 120 0 180,
   CourtShape.arc (0, 285 / 2) 120 120 180 0,
   CourtShape.arc (0, 0) 80 80 0 180,
   CourtShape.rect (-220, -95 / 2) 0 140,
   CourtShape.rect (220, -95 / 2) 0 140,
   CourtShape.arc (0, 0) 475 475 22 158]
  ++ (if outer_lines then [CourtShape.rect (-250, -95 / 2) 500 470] else [])

/-- The color normalization of the final scatter: `vmin=-0.10` and
`vmax=0.10` map a differential to `(v - vmin) / (vmax - vmin)`, and the
colormap clamps the result into [0, 1], so out-of-range differentials
saturate at the scale ends instead of being rejected. -/
def scatter_norm (v : ℚ) : ℚ :=
  max 0 (min 1 ((v - (-1 / 10)) / (1 / 10 - (-1 / 10))))

/-- One scatter marker: position, clamped color index, marker size. -/
structure Marker where
  x : ℚ
  y : ℚ
  color : ℚ
  size : ℚ
deriving DecidableEq, Repr

/-- The `plt.scatter` call of the renderer: one hexagon marker per cell,
colored by the clamped differential and sized by the sizing column. -/
def render_markers (cells : List HexCell) : List Marker :=
  cells.map fun c =>
    { x := c.loc_x, y := c.loc_y, color := scatter_norm c.difference,
      size := c.sizing }

/-- One drawn element of the final figure. -/
inductive PlotElement where
  | marker (m : Marker)
  | shape (s : CourtShape)
deriving DecidableEq, Repr

/-- The rendering half of `create_shot_chart` (lines 215-228): the
scatter markers followed by the court patches of
`draw_court(outer_lines=True)`. -/
def render (cells : List HexCell) : List PlotElement :=
  (render_markers cells).map PlotElement.marker
  ++ (draw_court true).map PlotElement.shape

/-- Modelled from the spec: the make-rate of a zone, "makes/attempts"
(`FGM / FGA`), stated in the spec's own words as the reference against
which the code's `FG_PCT` (a mean of `SHOT_MADE_FLAG`) is compared. -/
def spec_make_rate (shots : List ShotRecord) (k : String × String) : ℚ :=
  (zoneRowOf shots k).FGM / (zoneRowOf shots k).FGA

/-- Sample shot: player A, paint/center zone, made, at the hoop. -/
def wshot1 : ShotRecord :=
  { PLAYER_NAME := "A", TEAM_NAME := "T", SHOT_ZONE_BASIC := "P",
    SHOT_ZONE_AREA := "C", LOC_X := 0, LOC_Y := 0,
    SHOT_MADE_FLAG := 1, SHOT_ATTEMPTED_FLAG := 1 }

/-- Sample shot: player A, same cell as `wshot1`, missed. -/
def wshot2 : ShotRecord :=
  { PLAYER_NAME := "A", TEAM_NAME := "T", SHOT_ZONE_BASIC := "P",
    SHOT_ZONE_AREA := "C", LOC_X := 0, LOC_Y := 0,
    SHOT_MADE_FLAG := 0, SHOT_ATTEMPTED_FLAG := 1 }

/-- Sample shot: player A, left-wing zone, a different hex cell. -/
def wshot3 : ShotRecord :=
  { PLAYER_NAME := "A", TEAM_NAME := "T", SHOT_ZONE_BASIC := "L",
    SHOT_ZONE_AREA := "W", LOC_X := -200, LOC_Y := 200,
    SHOT_MADE_FLAG := 1, SHOT_ATTEMPTED_FLAG := 1 }

/-- Sample shot: player B, paint/center zone (changes the league rate). -/
def wshot4 : ShotRecord :=
  { PLAYER_NAME := "B", TEAM_NAME := "U", SHOT_ZONE_BASIC := "P",
    SHOT_ZONE_AREA := "C", LOC_X := 10, LOC_Y := 10,
    SHOT_MADE_FLAG := 0, SHOT_ATTEMPTED_FLAG := 1 }

/-- A small season dataset exercising two zones and two hex cells. -/
def wshots : List ShotRecord := [wshot1, wshot2, wshot3, wshot4]

/-- The first cell `create_shot_chart_cells wshots PLAYER_NAME "A" 2`
produces (two shots at the hoop). -/
def wcellA : HexCell :=
  { loc_x := 0, loc_y := -95 / 2, difference := 1 / 6, freq := 2,
    percentile := 1, sizing := 200 }

/-- The second cell of the same run (the left-wing shot). -/
def wcellB : HexCell :=
  { loc_x := -500000001 / 4000000, loc_y := 375 / 2, difference := 0,
    freq := 1, percentile := 1 / 2, sizing := 40 }

/-- A target shot whose coordinates lie far outside the court extent
(y = 1000 is beyond the binnable y range). -/
def c2shot : ShotRecord :=
  { PLAYER_NAME := "A", TEAM_NAME := "T", SHOT_ZONE_BASIC := "Z",
    SHOT_ZONE_AREA := "C", LOC_X := 0, LOC_Y := 1000,
    SHOT_MADE_FLAG := 1, SHOT_ATTEMPTED_FLAG := 1 }

/-- A one-shot dataset whose only shot is out of the grid's reach. -/
def c2shots : List ShotRecord := [c2shot]

/-- Season dataset in which target player A shoots 1-of-2 in zone (Z, C)
while the league overall shoots 9-of-20 in the same zone. -/
def c1shots : List ShotRecord :=
  [{ PLAYER_NAME := "A", TEAM_NAME := "T", SHOT_ZONE_BASIC := "Z",
     SHOT_ZONE_AREA := "C", LOC_X := 0, LOC_Y := 0,
     SHOT_MADE_FLAG := 1, SHOT_ATTEMPTED_FLAG := 1 },
   { PLAYER_NAME := "A", TEAM_NAME := "T", SHOT_ZONE_BASIC := "Z",
     SHOT_ZONE_AREA := "C", LOC_X := 0, LOC_Y := 0,
     SHOT_MADE_FLAG := 0, SHOT_ATTEMPTED_FLAG := 1 }]
  ++ List.replicate 8
    { PLAYER_NAME := "B", TEAM_NAME := "U", SHOT_ZONE_BASIC := "Z",
      SHOT_ZONE_AREA := "C", LOC_X := 5, LOC_Y := 5,
      SHOT_MADE_FLAG := 1, SHOT_ATTEMPTED_FLAG := 1 }
  ++ List.replicate 10
    { PLAYER_NAME := "B", TEAM_NAME := "U", SHOT_ZONE_BASIC := "Z",
      SHOT_ZONE_AREA := "C", LOC_X := 5, LOC_Y := 5,
      SHOT_MADE_FLAG := 0, SHOT_ATTEMPTED_FLAG := 1 }

/-- A concrete cell whose mean differential 0.25 exceeds the color
range. -/
def c8cellA : HexCell :=
  { loc_x := 0, loc_y := 0, difference := 1 / 4, freq := 1,
    percentile := 1, sizing := 200 }

/-- A concrete cell whose mean differential sits exactly at the color
range's top. -/
def c8cellB : HexCell :=
  { loc_x := 50, loc_y := 0, difference := 1 / 10, freq := 1,
    percentile := 1, sizing := 200 }

attribute [local semireducible] Rat.add Rat.sub Rat.mul Rat.inv

set_option maxRecDepth 100000

set_option maxHeartbeats 1000000

/-- Over a list of rows built from a key list, `find?` with a key
predicate returns the row built from the searched key as soon as the
key occurs: the predicate holds only for that row shape. -/
theorem find_map_key {κ τ : Type} [DecidableEq κ] (mk : κ → τ) (key : τ → κ)
    (hkey : ∀ k, key (mk k) = k) :
    ∀ (keys : List κ) (k : κ), k ∈ keys →
      (keys.map mk).find? (fun r => decide (key r = k)) = some (mk k) := by
  intro keys
  induction keys with
  | nil => intro k hk; cases hk
  | cons a tl ih =>
    intro k hk
    by_cases hak : a = k
    · subst hak
      simp [List.find?, hkey]
    · have hmem : k ∈ tl := by
        rcases List.mem_cons.mp hk with h | h
        · exact absurd h.symm hak
        · exact h
      simpa [List.find?, hkey, hak] using ih k hmem

/-- Membership in a grouped frame is membership of the key. -/
theorem mem_dedup_map_shotZone (l : List ShotRecord) (s : ShotRecord)
    (hs : s ∈ l) : shotZone s ∈ (l.map shotZone).dedup :=
  List.mem_dedup.mpr (List.mem_map_of_mem shotZone hs)

/-- The league lookup inside the first merge: for any key present in
the dataset, `find?` over the league frame yields that key's league
row. -/
theorem league_find (shots : List ShotRecord) (k : String × String)
    (hk : k ∈ (shots.map shotZone).dedup) :
    ((zone_agg shots).find? fun l =>
        decide ((l.SHOT_ZONE_BASIC, l.SHOT_ZONE_AREA) = k))
      = some (zoneRowOf shots k) := by
  have h := find_map_key (zoneRowOf shots)
    (fun r => (r.SHOT_ZONE_BASIC, r.SHOT_ZONE_AREA)) (fun _ => rfl)
    ((shots.map shotZone).dedup) k hk
  simpa [zone_agg] using h

/-- The DIFF a target shot receives from the second merge: the target
zone FG_PCT minus the league zone FG_PCT of the shot's own zone. -/
theorem shot_diff_eq (shots : List ShotRecord) (tc : TargetColumn)
    (name : String) (s : ShotRecord) (hs : s ∈ target_df shots tc name) :
    shot_diff shots tc name s
      = some ((zoneRowOf (target_df shots tc name) (shotZone s)).FG_PCT
              - (zoneRowOf shots (shotZone s)).FG_PCT) := by
  have hs_all : s ∈ shots := List.mem_of_mem_filter hs
  have hk_t : shotZone s ∈ ((target_df shots tc name).map shotZone).dedup :=
    mem_dedup_map_shotZone _ _ hs
  have hk_l : shotZone s ∈ (shots.map shotZone).dedup :=
    mem_dedup_map_shotZone _ _ hs_all
  have hfind := find_map_key (diffRowOf shots (target_df shots tc name))
    (fun r => (r.SHOT_ZONE_BASIC, r.SHOT_ZONE_AREA)) (fun _ => rfl)
    (((target_df shots tc name).map shotZone).dedup) (shotZone s) hk_t
  unfold shot_diff target_avg_rows
  rw [hfind]
  unfold diffRowOf
  simp [league_find shots (shotZone s) hk_l]

/-- The DIFF of a target shot is always defined: the league frame is
grouped over a superset of the target frame's rows. -/
theorem shot_diff_isSome (shots : List ShotRecord) (tc : TargetColumn)
    (name : String) (s : ShotRecord) (hs : s ∈ target_df shots tc name) :
    (shot_diff shots tc name s).isSome := by
  rw [shot_diff_eq shots tc name s hs]
  rfl

/-- Summing a pointwise sum of two maps splits. -/
theorem sum_map_add {α : Type} (L : List α) (f g : α → ℚ) :
    (L.map fun a => f a + g a).sum = (L.map f).sum + (L.map g).sum := by
  induction L with
  | nil => simp
  | cons a tl ih => simp [ih]; ring

/-- An indicator sum over a duplicate-free list containing the hit. -/
theorem sum_map_ite_mem {γ : Type} [DecidableEq γ] (w : ℚ) :
    ∀ (L : List γ), L.Nodup → ∀ c0 ∈ L,
      (L.map fun c => if c0 = c then w else 0).sum = w := by
  intro L
  induction L with
  | nil => intro _ c0 h; cases h
  | cons a tl ih =>
    intro hnd c0 hc0
    rcases List.mem_cons.mp hc0 with h | h
    · subst h
      have hna : c0 ∉ tl := (List.nodup_cons.mp hnd).1
      have hz : (tl.map fun c => if c0 = c then w else 0).sum = 0 := by
        rw [List.sum_eq_zero]
        intro x hx
        rcases List.mem_map.mp hx with ⟨c, hc, rfl⟩
        have : c0 ≠ c := fun h => hna (h ▸ hc)
        simp [this]
      simp [hz]
    · have hne : c0 ≠ a := by
        intro he; exact (List.nodup_cons.mp hnd).1 (he ▸ h)
      simp [hne, ih (List.nodup_cons.mp hnd).2 c0 h]

/-- Exchanging a sum over cells of sums over assigned points for a
single sum over the points that are assigned anywhere: every point
lands in at most one cell, and its cell is listed exactly once. -/
theorem sum_over_cells {γ P : Type} [DecidableEq γ] (L : List γ) (hL : L.Nodup)
    (assign : P → Option γ) (w : P → ℚ)
    (hin : ∀ p c, assign p = some c → c ∈ L) :
    ∀ pts : List P,
      (L.map fun c =>
        ((pts.filter fun p => decide (assign p = some c)).map w).sum).sum
      = ((pts.filter fun p => (assign p).isSome).map w).sum := by
  intro pts
  induction pts with
  | nil => simp
  | cons p tl ih =>
    have hsplit : (L.map fun c =>
        (((p :: tl).filter fun q => decide (assign q = some c)).map w).sum)
      = L.map fun c =>
        (if assign p = some c then w p else 0)
        + ((tl.filter fun q => decide (assign q = some c)).map w).sum := by
      apply List.map_congr_left
      intro c _
      by_cases hpc : assign p = some c
      · simp [List.filter_cons, hpc]
      · simp [List.filter_cons, hpc]
    rw [hsplit, sum_map_add]
    cases ho : assign p with
    | none =>
      simp [List.filter_cons, ho, ih]
    | some c0 =>
      have hone : (L.map fun c => if some c0 = some c then w p else 0).sum
          = w p := by
        have heq : (L.map fun c => if some c0 = some c then w p else 0)
            = L.map fun c => if c0 = c then w p else 0 := by
          apply List.map_congr_left
          intro c _
          simp
        rw [heq, sum_map_ite_mem (w p) L hL c0 (hin p c0 ho)]
      rw [hone]
      have hfil : ((p :: tl).filter fun q => (assign q).isSome) =
          p :: (tl.filter fun q => (assign q).isSome) := by
        simp [List.filter_cons, ho]
      rw [hfil]
      simp [ih]

/-- Membership in one lattice of the cell enumeration. -/
theorem mem_latticeList (n m : ℕ) (b0 b : Bool) (i j : ℤ) :
    ((b, i, j) ∈ (List.range n).flatMap fun (a : ℕ) =>
        (List.range m).map fun (c : ℕ) => (b0, (a : ℤ), (c : ℤ)))
      ↔ (b = b0 ∧ 0 ≤ i ∧ i < (n : ℤ) ∧ 0 ≤ j ∧ j < (m : ℤ)) := by
  constructor
  · intro h
    rcases List.mem_flatMap.mp h with ⟨a, ha, hmem⟩
    rcases List.mem_map.mp hmem with ⟨c, hc, heq⟩
    have ha2 := List.mem_range.mp ha
    have hc2 := List.mem_range.mp hc
    injection heq with hb hrest
    injection hrest with hi hj
    subst hb
    subst hi
    subst hj
    refine ⟨rfl, Int.natCast_nonneg a, ?_, Int.natCast_nonneg c, ?_⟩
    · exact_mod_cast ha2
    · exact_mod_cast hc2
  · rintro ⟨rfl, hi0, hin, hj0, hjm⟩
    refine List.mem_flatMap.mpr ⟨i.toNat, List.mem_range.mpr (by omega), ?_⟩
    refine List.mem_map.mpr ⟨j.toNat, List.mem_range.mpr (by omega), ?_⟩
    rw [Int.toNat_of_nonneg hi0, Int.toNat_of_nonneg hj0]

/-- Each lattice enumerates pairwise distinct cells. -/
theorem latticeList_nodup (n m : ℕ) (b0 : Bool) :
    ((List.range n).flatMap fun (a : ℕ) =>
      (List.range m).map fun (c : ℕ) => (b0, (a : ℤ), (c : ℤ))).Nodup := by
  refine List.nodup_flatMap.mpr ⟨?_, ?_⟩
  · intro a ha
    refine List.Nodup.map ?_ (List.nodup_range m)
    intro c1 c2 hc
    have h2 : ((c1 : ℤ)) = ((c2 : ℤ)) := congrArg (fun t => t.2.2) hc
    exact_mod_cast h2
  · have hpl : (List.range n).Pairwise (· < ·) := List.pairwise_lt_range n
    refine hpl.imp ?_
    intro a b hab x hxa hxb
    rcases List.mem_map.mp hxa with ⟨c1, _, rfl⟩
    rcases List.mem_map.mp hxb with ⟨c2, _, heq⟩
    have h2 : ((b : ℕ) : ℤ) = ((a : ℕ) : ℤ) := congrArg (fun t => t.2.1) heq
    have : b = a := by exact_mod_cast h2
    omega

/-- The whole cell enumeration is duplicate free. -/
theorem cellIndexList_nodup (g : HexGrid) : (cellIndexList g).Nodup := by
  unfold cellIndexList
  rw [List.nodup_append]
  refine ⟨latticeList_nodup _ _ true, latticeList_nodup _ _ false, ?_⟩
  intro x hx1 hx2
  obtain ⟨b, i, j⟩ := x
  have h1 := (mem_latticeList _ _ true b i j).mp hx1
  have h2 := (mem_latticeList _ _ false b i j).mp hx2
  rw [h1.1] at h2
  exact Bool.noConfusion h2.1

/-- Characterization of the enumerated cells. -/
theorem mem_cellIndexList (g : HexGrid) (b : Bool) (i j : ℤ) :
    ((b, i, j) ∈ cellIndexList g) ↔
      ((b = true ∧ 0 ≤ i ∧ i < (g.nx : ℤ) + 1 ∧ 0 ≤ j ∧ j < (g.ny : ℤ) + 1)
        ∨ (b = false ∧ 0 ≤ i ∧ i < (g.nx : ℤ) ∧ 0 ≤ j ∧ j < (g.ny : ℤ))) := by
  unfold cellIndexList
  rw [List.mem_append, mem_latticeList, mem_latticeList]
  push_cast
  exact Iff.rfl

/-- A point the binning keeps lands in an enumerated cell. -/
theorem hexAssign_mem (g : HexGrid) (px py : ℚ) (c : Bool × ℤ × ℤ)
    (h : hexAssign g px py = some c) : c ∈ cellIndexList g := by
  obtain ⟨b, i, j⟩ := c
  rw [mem_cellIndexList]
  simp only [hexAssign] at h
  split_ifs at h with hd hg1 hg2
  · simp only [Option.some.injEq, Prod.mk.injEq] at h
    obtain ⟨hb, hi, hj⟩ := h
    subst hb
    subst hi
    subst hj
    exact Or.inl ⟨rfl, hg1.1, hg1.2.1, hg1.2.2.1, hg1.2.2.2⟩
  · simp only [Option.some.injEq, Prod.mk.injEq] at h
    obtain ⟨hb, hi, hj⟩ := h
    subst hb
    subst hi
    subst hj
    exact Or.inr ⟨rfl, hg2.1, hg2.2.1, hg2.2.2.1, hg2.2.2.2⟩

/-- Dropping empty cells does not change the total of the per-cell
sums: an empty cell contributes zero. -/
theorem sum_filterMap_cells {γ : Type} (F : γ → List ℚ) (ctr : γ → ℚ × ℚ) :
    ∀ L : List γ,
      ((L.filterMap fun c =>
          if (F c).length = 0 then none else some (ctr c, (F c).sum)).map
        fun e => e.2).sum
      = (L.map fun c => (F c).sum).sum := by
  intro L
  induction L with
  | nil => simp
  | cons c tl ih =>
    by_cases hc : (F c).length = 0
    · have hnone : (fun c =>
          if (F c).length = 0 then none else some (ctr c, (F c).sum)) c
            = none := if_pos hc
      rw [@List.filterMap_cons_none _ _
        (fun c => if (F c).length = 0 then none else some (ctr c, (F c).sum))
        c tl hnone, ih, List.map_cons, List.sum_cons]
      have hnil : (F c).sum = 0 := by
        rw [List.length_eq_zero.mp hc]
        rfl
      rw [hnil]
      ring
    · have hsome : (fun c =>
          if (F c).length = 0 then none else some (ctr c, (F c).sum)) c
            = some (ctr c, (F c).sum) := if_neg hc
      rw [@List.filterMap_cons_some _ _
        (fun c => if (F c).length = 0 then none else some (ctr c, (F c).sum))
        c tl _ hsome, List.map_cons, List.sum_cons, ih,
        List.map_cons, List.sum_cons]

/-- The total of an `np.sum`-reduced hexbin equals the total weight of
the points that were assigned to some cell. -/
theorem hexbin_sum_eq (g : HexGrid) (pts : List (ℚ × ℚ × ℚ)) :
    ((hexbin g pts npSum).map fun e => e.2).sum
      = ((pts.filter fun p => (hexAssign g p.1 p.2.1).isSome).map
          fun p => p.2.2).sum := by
  unfold hexbin
  simp only [npSum]
  rw [sum_filterMap_cells
    (fun c => (pts.filter fun p => decide (hexAssign g p.1 p.2.1 = some c)).map
      fun p => p.2.2)
    (cellCenter g) (cellIndexList g)]
  exact sum_over_cells (cellIndexList g) (cellIndexList_nodup g)
    (fun p : ℚ × ℚ × ℚ => hexAssign g p.1 p.2.1)
    (fun p : ℚ × ℚ × ℚ => p.2.2)
    (fun p c hpc => hexAssign_mem g p.1 p.2.1 c hpc) pts

/-- Zipping two equal-length lists and projecting a left component is
projecting it from the left list. -/
theorem zip_map_left {α β γ : Type} (f : α → γ) :
    ∀ (l : List α) (m : List β), l.length = m.length →
      ((l.zip m).map fun p => f p.1) = l.map f := by
  intro l
  induction l with
  | nil => intro m h; simp
  | cons a tl ih =>
    intro m h
    cases m with
    | nil => simp at h
    | cons b tm =>
      simp only [List.zip_cons_cons, List.map_cons]
      rw [ih tm (by simpa using h)]

/-- A `filterMap` whose function is defined on every element is a `map`. -/
theorem filterMap_eq_map_getD {α : Type} (F : α → Option ℚ)
    (G : α → ℚ → ℚ × ℚ × ℚ) :
    ∀ l : List α, (∀ s ∈ l, (F s).isSome) →
      (l.filterMap fun s => (F s).map (G s))
        = l.map fun s => G s ((F s).getD 0) := by
  intro l
  induction l with
  | nil => intro _; rfl
  | cons a tl ih =>
    intro h
    have ha := h a (List.mem_cons_self a tl)
    rcases Option.isSome_iff_exists.mp ha with ⟨d, hd⟩
    simp [List.filterMap_cons, hd]
    rw [ih fun s hs => h s (List.mem_cons_of_mem a hs)]

/-- The DIFF hexbin points are just the target shots with their DIFF
values, because every target shot has a defined DIFF. -/
theorem diff_points_eq_map (shots : List ShotRecord) (tc : TargetColumn)
    (name : String) :
    diff_points shots tc name
      = (target_df shots tc name).map fun s =>
          (s.LOC_X, s.LOC_Y, (shot_diff shots tc name s).getD 0) := by
  unfold diff_points
  exact filterMap_eq_map_getD (shot_diff shots tc name)
    (fun s d => (s.LOC_X, s.LOC_Y, d)) (target_df shots tc name)
    (fun s hs => shot_diff_isSome shots tc name s hs)

/-- Two pointwise equi-defined `filterMap`s have the same length. -/
theorem filterMap_length_congr {γ A B : Type} (f : γ → Option A)
    (g : γ → Option B) :
    ∀ L : List γ, (∀ c ∈ L, (f c).isSome ↔ (g c).isSome) →
      (L.filterMap f).length = (L.filterMap g).length := by
  intro L
  induction L with
  | nil => intro _; rfl
  | cons c tl ih =>
    intro h
    have hc := h c (List.mem_cons_self c tl)
    have htl := ih fun x hx => h x (List.mem_cons_of_mem c hx)
    cases hf : f c with
    | none =>
      have hg : g c = none := by
        cases hg2 : g c with
        | none => rfl
        | some b =>
          rw [hf, hg2] at hc
          simp at hc
      simp only [List.filterMap_cons, hf, hg, htl]
    | some a =>
      have hgs : (g c).isSome := hc.mp (by rw [hf]; rfl)
      rcases Option.isSome_iff_exists.mp hgs with ⟨b, hb⟩
      simp only [List.filterMap_cons, hf, hb, List.length_cons, htl]

/-- Zipping two pointwise equi-defined `filterMap`s pairs the values of
the same source element. -/
theorem filterMap_zip_eq {γ A B : Type} (f : γ → Option A) (g : γ → Option B) :
    ∀ L : List γ, (∀ c ∈ L, (f c).isSome ↔ (g c).isSome) →
      (L.filterMap f).zip (L.filterMap g)
        = L.filterMap fun c => (f c).bind fun a => (g c).map fun b => (a, b) := by
  intro L
  induction L with
  | nil => intro _; rfl
  | cons c tl ih =>
    intro h
    have hc := h c (List.mem_cons_self c tl)
    have htl := ih fun x hx => h x (List.mem_cons_of_mem c hx)
    cases hf : f c with
    | none =>
      have hg : g c = none := by
        cases hg2 : g c with
        | none => rfl
        | some b =>
          rw [hf, hg2] at hc
          simp at hc
      simp [List.filterMap_cons, hf, hg, htl]
    | some a =>
      have hgs : (g c).isSome := hc.mp (by rw [hf]; rfl)
      rcases Option.isSome_iff_exists.mp hgs with ⟨b, hb⟩
      simp [List.filterMap_cons, hf, hb, htl]

/-- Filtering the attempt-hexbin points of a cell is filtering the
target shots assigned to that cell. -/
theorem shot_points_filter (shots : List ShotRecord) (tc : TargetColumn)
    (name : String) (nx : ℕ) (c : Bool × ℤ × ℤ) :
    ((shot_points shots tc name).filter fun p =>
        decide (hexAssign (court_grid nx) p.1 p.2.1 = some c))
      = ((target_df shots tc name).filter fun s =>
          decide (hexAssign (court_grid nx) s.LOC_X s.LOC_Y = some c)).map
        fun s => (s.LOC_X, s.LOC_Y, s.SHOT_ATTEMPTED_FLAG) := by
  unfold shot_points
  rw [List.filter_map]
  rfl

/-- Filtering the DIFF-hexbin points of a cell is filtering the target
shots assigned to that cell. -/
theorem diff_points_filter (shots : List ShotRecord) (tc : TargetColumn)
    (name : String) (nx : ℕ) (c : Bool × ℤ × ℤ) :
    ((diff_points shots tc name).filter fun p =>
        decide (hexAssign (court_grid nx) p.1 p.2.1 = some c))
      = ((target_df shots tc name).filter fun s =>
          decide (hexAssign (court_grid nx) s.LOC_X s.LOC_Y = some c)).map
        fun s => (s.LOC_X, s.LOC_Y, (shot_diff shots tc name s).getD 0) := by
  rw [diff_points_eq_map, List.filter_map]
  rfl

/-- Both hexbin calls keep the same cells, so their outputs align. -/
theorem hexbin_lengths (shots : List ShotRecord) (tc : TargetColumn)
    (name : String) (nx : ℕ) :
    (hexbin (court_grid nx) (shot_points shots tc name) npSum).length
      = (hexbin (court_grid nx) (diff_points shots tc name) npMean).length := by
  unfold hexbin
  apply filterMap_length_congr
  intro c _
  have hAB : ((shot_points shots tc name).filter fun p =>
        decide (hexAssign (court_grid nx) p.1 p.2.1 = some c)).length
      = ((diff_points shots tc name).filter fun p =>
          decide (hexAssign (court_grid nx) p.1 p.2.1 = some c)).length := by
    rw [shot_points_filter shots tc name nx c, diff_points_filter shots tc name nx c]
    rw [List.length_map, List.length_map]
  simp only [List.length_map]
  rw [hAB]
  by_cases h0 : ((diff_points shots tc name).filter fun p =>
      decide (hexAssign (court_grid nx) p.1 p.2.1 = some c)).length = 0
  · simp [h0]
  · simp [h0]

/-- When the grid is nondegenerate the pipeline succeeds and returns
the zipped frame. -/
theorem create_cells_some (shots : List ShotRecord) (tc : TargetColumn)
    (name : String) (nx : ℕ) (hny : gridNy nx ≠ 0) :
    create_shot_chart_cells shots tc name nx
      = some (finalize
        (((hexbin (court_grid nx) (shot_points shots tc name) npSum).zip
            (hexbin (court_grid nx) (diff_points shots tc name) npMean)).map
          fun p => (p.1.1, p.2.2, p.1.2))) := by
  unfold create_shot_chart_cells
  rw [if_neg hny, if_pos (hexbin_lengths shots tc name nx)]

/-- The pipeline never raises once the grid is nondegenerate. -/
theorem create_cells_isSome (shots : List ShotRecord) (tc : TargetColumn)
    (name : String) (nx : ℕ) (hny : gridNy nx ≠ 0) :
    (create_shot_chart_cells shots tc name nx).isSome := by
  rw [create_cells_some shots tc name nx hny]
  rfl

/-- Inversion: a successful run forces a nondegenerate grid and pins
the produced frame. -/
theorem create_cells_inv (shots : List ShotRecord) (tc : TargetColumn)
    (name : String) (nx : ℕ) (cells : List HexCell)
    (h : create_shot_chart_cells shots tc name nx = some cells) :
    gridNy nx ≠ 0 ∧ cells = finalize
      (((hexbin (court_grid nx) (shot_points shots tc name) npSum).zip
          (hexbin (court_grid nx) (diff_points shots tc name) npMean)).map
        fun p => (p.1.1, p.2.2, p.1.2)) := by
  by_cases hny : gridNy nx = 0
  · unfold create_shot_chart_cells at h
    rw [if_pos hny] at h
    exact Option.noConfusion h
  · refine ⟨hny, ?_⟩
    rw [create_cells_some shots tc name nx hny] at h
    exact (Option.some.inj h).symm

/-- The freq column of the final frame. -/
theorem finalize_map_freq (rows : List ((ℚ × ℚ) × ℚ × ℚ)) :
    (finalize rows).map HexCell.freq = rows.map fun r => r.2.2 := by
  unfold finalize
  rw [List.map_map]
  rfl

/-- A cell of the final frame comes from a raw row, with percentile and
sizing recomputed from the freq column. -/
theorem finalize_mem (rows : List ((ℚ × ℚ) × ℚ × ℚ)) (C : HexCell)
    (hC : C ∈ finalize rows) :
    ∃ r ∈ rows, C =
      { loc_x := r.1.1, loc_y := r.1.2, difference := r.2.1, freq := r.2.2,
        percentile := pct_rank (rows.map fun t => t.2.2) r.2.2,
        sizing := sizing_rule (pct_rank (rows.map fun t => t.2.2) r.2.2) } := by
  unfold finalize at hC
  rcases List.mem_map.mp hC with ⟨r, hr, heq⟩
  exact ⟨r, hr, heq.symm⟩

/-- Filtering with a weaker predicate keeps at least as many elements. -/
theorem length_filter_le_of_imp {α : Type} (p q : α → Bool) :
    ∀ l : List α, (∀ x ∈ l, p x = true → q x = true) →
      (l.filter p).length ≤ (l.filter q).length := by
  intro l
  induction l with
  | nil => intro _; exact Nat.le_refl 0
  | cons a tl ih =>
    intro h
    have htl := ih fun x hx => h x (List.mem_cons_of_mem a hx)
    by_cases hpa : p a = true
    · have hqa := h a (List.mem_cons_self a tl) hpa
      simp only [List.filter_cons, hpa, hqa, if_true, List.length_cons]
      exact Nat.succ_le_succ htl
    · by_cases hqa : q a = true
      · simp only [List.filter_cons, hpa, hqa, if_true, List.length_cons,
          Bool.false_eq_true, if_false]
        exact Nat.le_succ_of_le htl
      · simp only [List.filter_cons, hpa, hqa, Bool.false_eq_true, if_false]
        exact htl

/-- Counting the elements at most `v` splits into strictly-below and
tied counts. -/
theorem length_filter_le_add (v : ℚ) :
    ∀ l : List ℚ,
      (l.filter fun u => decide (u ≤ v)).length
        = (l.filter fun u => decide (u < v)).length
          + (l.filter fun u => decide (u = v)).length := by
  intro l
  induction l with
  | nil => rfl
  | cons a tl ih =>
    rcases lt_trichotomy a v with h | h | h
    · have h1 : decide (a ≤ v) = true := decide_eq_true (le_of_lt h)
      have h2 : decide (a < v) = true := decide_eq_true h
      have h3 : decide (a = v) = false := decide_eq_false (ne_of_lt h)
      simp only [List.filter_cons, h1, h2, h3, if_true, Bool.false_eq_true,
        if_false, List.length_cons, ih]
      omega
    · have h1 : decide (a ≤ v) = true := decide_eq_true (le_of_eq h)
      have h2 : decide (a < v) = false := decide_eq_false (by
        rw [h]; exact lt_irrefl v)
      have h3 : decide (a = v) = true := decide_eq_true h
      simp only [List.filter_cons, h1, h2, h3, if_true, Bool.false_eq_true,
        if_false, List.length_cons, ih]
      omega
    · have h1 : decide (a ≤ v) = false := decide_eq_false (not_le.mpr h)
      have h2 : decide (a < v) = false := decide_eq_false (asymm h)
      have h3 : decide (a = v) = false := decide_eq_false (ne_of_gt h)
      simp only [List.filter_cons, h1, h2, h3, Bool.false_eq_true, if_false, ih]

/-- The percentile rank is monotone in the ranked value. -/
theorem pct_rank_mono (vals : List ℚ) (a b : ℚ) (hba : b < a) :
    pct_rank vals b ≤ pct_rank vals a := by
  unfold pct_rank
  rcases Nat.eq_zero_or_pos vals.length with h0 | hpos
  · simp [h0]
  · have hn : (0 : ℚ) < (vals.length : ℚ) := by exact_mod_cast hpos
    have hsub : (vals.filter fun u => decide (u ≤ b)).length
        ≤ (vals.filter fun u => decide (u < a)).length := by
      apply length_filter_le_of_imp
      intro x _ hx
      exact decide_eq_true (lt_of_le_of_lt (of_decide_eq_true hx) hba)
    rw [length_filter_le_add b vals] at hsub
    have hcast : ((vals.filter fun u => decide (u < b)).length : ℚ)
        + ((vals.filter fun u => decide (u = b)).length : ℚ)
        ≤ ((vals.filter fun u => decide (u < a)).length : ℚ) := by
      exact_mod_cast hsub
    have htb : (0 : ℚ) ≤ ((vals.filter fun u => decide (u = b)).length : ℚ) :=
      Nat.cast_nonneg _
    have hta : (0 : ℚ) ≤ ((vals.filter fun u => decide (u = a)).length : ℚ) :=
      Nat.cast_nonneg _
    have hnum : ((vals.filter fun u => decide (u < b)).length : ℚ)
        + (((vals.filter fun u => decide (u = b)).length : ℚ) + 1) / 2
        ≤ ((vals.filter fun u => decide (u < a)).length : ℚ)
          + (((vals.filter fun u => decide (u = a)).length : ℚ) + 1) / 2 := by
      linarith
    exact (div_le_div_iff_of_pos_right hn).mpr hnum

/-- The percentile rank of a value present in the column lies in
`[0, 1]`. -/
theorem pct_rank_bounds (vals : List ℚ) (v : ℚ) (hv : v ∈ vals) :
    0 ≤ pct_rank vals v ∧ pct_rank vals v ≤ 1 := by
  have hpos : 0 < vals.length := List.length_pos.mpr (List.ne_nil_of_mem hv)
  have hn : (0 : ℚ) < (vals.length : ℚ) := by exact_mod_cast hpos
  have htie : 1 ≤ (vals.filter fun u => decide (u = v)).length := by
    have : v ∈ vals.filter fun u => decide (u = v) :=
      List.mem_filter.mpr ⟨hv, decide_eq_true rfl⟩
    exact List.length_pos.mpr (List.ne_nil_of_mem this)
  have hle : (vals.filter fun u => decide (u < v)).length
      + (vals.filter fun u => decide (u = v)).length ≤ vals.length := by
    rw [← length_filter_le_add v vals]
    exact List.length_filter_le _ vals
  have htie2 : (1 : ℚ) ≤ ((vals.filter fun u => decide (u = v)).length : ℚ) := by
    exact_mod_cast htie
  have hle2 : ((vals.filter fun u => decide (u < v)).length : ℚ)
      + ((vals.filter fun u => decide (u = v)).length : ℚ)
      ≤ ((vals.length : ℚ)) := by
    exact_mod_cast hle
  have hlt0 : (0 : ℚ) ≤ ((vals.filter fun u => decide (u < v)).length : ℚ) :=
    Nat.cast_nonneg _
  unfold pct_rank
  constructor
  · apply div_nonneg ?_ (le_of_lt hn)
    linarith
  · rw [div_le_one hn]
    linarith

/-- Sum of the `t` consecutive ranks starting above `x`. -/
theorem sum_range_shift (x : ℚ) :
    ∀ t : ℕ, ((List.range t).map fun (i : ℕ) => x + (i : ℚ) + 1).sum
      = t * x + t * (t + 1) / 2 := by
  intro t
  induction t with
  | zero => simp
  | succ n ih =>
    rw [List.range_succ, List.map_append, List.sum_append, ih]
    simp only [List.map_cons, List.map_nil, List.sum_cons, List.sum_nil]
    push_cast
    ring

/-- Tied values receive the average of the ranks they occupy: the rank
scaled back by the row count, times the number of ties, is the sum of
the consecutive integer ranks of the tied block. -/
theorem pct_rank_tie (vals : List ℚ) (v : ℚ) (hv : v ∈ vals) :
    pct_rank vals v * (vals.length : ℚ)
        * ((vals.filter fun u => decide (u = v)).length : ℚ)
      = ((List.range ((vals.filter fun u => decide (u = v)).length)).map
          fun (i : ℕ) => ((vals.filter fun u => decide (u < v)).length : ℚ)
            + (i : ℚ) + 1).sum := by
  have hpos : 0 < vals.length := List.length_pos.mpr (List.ne_nil_of_mem hv)
  have hn : ((vals.length : ℚ)) ≠ 0 := by
    have : (0 : ℚ) < (vals.length : ℚ) := by exact_mod_cast hpos
    exact ne_of_gt this
  unfold pct_rank
  rw [div_mul_cancel₀ _ hn, sum_range_shift]
  ring

/-- Binning no points yields no occupied cells. -/
theorem hexbin_nil (g : HexGrid) (reduce : List ℚ → ℚ) :
    hexbin g [] reduce = [] := by
  unfold hexbin
  exact List.filterMap_eq_nil_iff.mpr fun c _ => rfl

/-- With no matching subject rows the whole pipeline yields an empty
frame (and no error). -/
theorem empty_match_cells (shots : List ShotRecord) (tc : TargetColumn)
    (name : String) (nx : ℕ) (hmatch : ∀ s ∈ shots, tc.get s ≠ name)
    (hny : gridNy nx ≠ 0) :
    create_shot_chart_cells shots tc name nx = some [] := by
  have htdf : target_df shots tc name = [] := by
    unfold target_df
    apply List.filter_eq_nil_iff.mpr
    intro s hs
    simpa using hmatch s hs
  rw [create_cells_some shots tc name nx hny]
  unfold shot_points diff_points
  rw [htdf]
  simp [hexbin_nil, finalize]

/-- A map of a constant-one column sums to the row count. -/
theorem sum_map_const_one {α : Type} (f : α → ℚ) :
    ∀ l : List α, (∀ x ∈ l, f x = 1) → (l.map f).sum = (l.length : ℚ) := by
  intro l
  induction l with
  | nil => intro _; simp
  | cons a tl ih =>
    intro h
    rw [List.map_cons, List.sum_cons, h a (List.mem_cons_self a tl),
      ih fun x hx => h x (List.mem_cons_of_mem a hx), List.length_cons]
    push_cast
    ring

/-- Filtering preserves well-formedness. -/
theorem wellFormed_filter (shots : List ShotRecord) (hw : wellFormed shots)
    (p : ShotRecord → Bool) : wellFormed (shots.filter p) :=
  fun s hs => hw s (List.mem_of_mem_filter hs)

/-- On well-formed data the code's FG_PCT (a mean of the made flags)
is the spec's make-rate (makes over attempts). -/
theorem FG_PCT_eq_spec_rate (shots : List ShotRecord) (hw : wellFormed shots)
    (k : String × String) :
    (zoneRowOf shots k).FG_PCT = spec_make_rate shots k := by
  have hfga : (zoneRowOf shots k).FGA = ((zone_group shots k).length : ℚ) :=
    sum_map_const_one ShotRecord.SHOT_ATTEMPTED_FLAG (zone_group shots k)
      (fun x hx => hw x (List.mem_of_mem_filter hx))
  unfold spec_make_rate
  rw [hfga]
  rfl

/-- C1: for every well-formed shot dataset, subject field and subject
value, the merged target frame has a differential row for exactly the
zone pairs the subject attempted from, each differential equals the
subject's make-rate minus the league make-rate in that zone, and in
particular a zone with target make-rate 0.50 and league make-rate 0.45
gets differential 0.05 within tolerance 1e-9. -/
theorem c1_zone_differentials (shots : List ShotRecord) (tc : TargetColumn)
    (name : String) (hw : wellFormed shots) :
    (∀ k : String × String,
        (∃ r ∈ target_avg_rows shots tc name,
          (r.SHOT_ZONE_BASIC, r.SHOT_ZONE_AREA) = k)
        ↔ ∃ s ∈ target_df shots tc name, shotZone s = k)
    ∧ (∀ r ∈ target_avg_rows shots tc name,
        r.DIFF = some (spec_make_rate (target_df shots tc name)
            (r.SHOT_ZONE_BASIC, r.SHOT_ZONE_AREA)
          - spec_make_rate shots (r.SHOT_ZONE_BASIC, r.SHOT_ZONE_AREA)))
    ∧ (∀ r ∈ target_avg_rows shots tc name, ∀ d : ℚ, r.DIFF = some d →
        spec_make_rate (target_df shots tc name)
            (r.SHOT_ZONE_BASIC, r.SHOT_ZONE_AREA) = 1 / 2 →
        spec_make_rate shots (r.SHOT_ZONE_BASIC, r.SHOT_ZONE_AREA) = 9 / 20 →
        |d - 5 / 100| ≤ 1 / 1000000000) := by
  have hdiff : ∀ r ∈ target_avg_rows shots tc name,
      r.DIFF = some (spec_make_rate (target_df shots tc name)
          (r.SHOT_ZONE_BASIC, r.SHOT_ZONE_AREA)
        - spec_make_rate shots (r.SHOT_ZONE_BASIC, r.SHOT_ZONE_AREA)) := by
    intro r hr
    unfold target_avg_rows at hr
    rcases List.mem_map.mp hr with ⟨k, hk, rfl⟩
    have hk2 : k ∈ ((target_df shots tc name).map shotZone) :=
      List.mem_dedup.mp hk
    rcases List.mem_map.mp hk2 with ⟨s, hs, rfl⟩
    have hkl : shotZone s ∈ (shots.map shotZone).dedup :=
      mem_dedup_map_shotZone _ _ (List.mem_of_mem_filter hs)
    show (diffRowOf shots (target_df shots tc name) (shotZone s)).DIFF = _
    unfold diffRowOf
    rw [league_find shots (shotZone s) hkl]
    show some ((zoneRowOf (target_df shots tc name) (shotZone s)).FG_PCT
        - (zoneRowOf shots (shotZone s)).FG_PCT) = _
    rw [FG_PCT_eq_spec_rate shots hw,
      FG_PCT_eq_spec_rate (target_df shots tc name)
        (wellFormed_filter shots hw _)]
  refine ⟨?_, hdiff, ?_⟩
  · intro k
    constructor
    · rintro ⟨r, hr, hkey⟩
      unfold target_avg_rows at hr
      rcases List.mem_map.mp hr with ⟨k2, hk2, rfl⟩
      have : k2 = k := hkey
      subst this
      have hk3 : k2 ∈ ((target_df shots tc name).map shotZone) :=
        List.mem_dedup.mp hk2
      rcases List.mem_map.mp hk3 with ⟨s, hs, rfl⟩
      exact ⟨s, hs, rfl⟩
    · rintro ⟨s, hs, rfl⟩
      refine ⟨diffRowOf shots (target_df shots tc name) (shotZone s), ?_, rfl⟩
      unfold target_avg_rows
      exact List.mem_map.mpr ⟨shotZone s, mem_dedup_map_shotZone _ _ hs, rfl⟩
  · intro r hr d hd ht hl
    have h2 := hdiff r hr
    rw [hd, ht, hl] at h2
    have hdv : d = 1 / 2 - 9 / 20 := Option.some.inj h2
    rw [hdv]
    norm_num

/-- C1 witness: on the concrete dataset where player A shoots 1-of-2 in
zone (Z, C) and the league shoots 9-of-20 there, the merged row's
differential is within 1e-9 of 0.05. -/
theorem c1_zone_differentials_witness :
    |(1 / 2 - 9 / 20 : ℚ) - 5 / 100| ≤ 1 / 1000000000 := by
  have h := (c1_zone_differentials c1shots TargetColumn.PLAYER_NAME "A"
    (by unfold wellFormed; decide)).2.2
  exact h (diffRowOf c1shots (target_df c1shots TargetColumn.PLAYER_NAME "A")
      ("Z", "C")) (by decide) (1 / 2 - 9 / 20) (by decide) (by decide)
    (by decide)

/-- C3: the sizing lambda partitions percentiles into exactly four
ordinal tiers, with inclusive-low boundaries 0.40, 0.75 and 0.90. -/
theorem c3_sizing_tiers (p : ℚ) :
    (p ≤ 2 / 5 → sizing_rule p = 2)
    ∧ (2 / 5 < p → p ≤ 3 / 4 → sizing_rule p = 40)
    ∧ (3 / 4 < p → p ≤ 9 / 10 → sizing_rule p = 100)
    ∧ (9 / 10 < p → sizing_rule p = 200) := by
  unfold sizing_rule
  refine ⟨?_, ?_, ?_, ?_⟩
  · intro h1
    rw [if_pos h1]
  · intro h1 h2
    rw [if_neg (not_le.mpr h1), if_pos h2]
  · intro h1 h2
    rw [if_neg (not_le.mpr (by linarith)), if_neg (not_le.mpr h1), if_pos h2]
  · intro h1
    rw [if_neg (not_le.mpr (by linarith)), if_neg (not_le.mpr (by linarith)),
      if_neg (not_le.mpr h1)]

/-- C3 witness: a percentile of one half lands in the second tier. -/
theorem c3_sizing_tiers_witness : sizing_rule (1 / 2) = 40 :=
  (c3_sizing_tiers (1 / 2)).2.1 (by norm_num) (by norm_num)

/-- C8: the scatter color scale clamps the mean differential into
[-0.10, 0.10] instead of rejecting it: differentials at or above the
top saturate at 1, at or below the bottom saturate at 0, every color
index lies in [0, 1], and a cell at 0.25 is rendered with the very
color of a cell at exactly 0.10. -/
theorem c8_color_clamped (c d : HexCell) :
    (1 / 10 ≤ c.difference → scatter_norm c.difference = 1)
    ∧ (c.difference ≤ -(1 / 10) → scatter_norm c.difference = 0)
    ∧ (0 ≤ scatter_norm c.difference ∧ scatter_norm c.difference ≤ 1)
    ∧ (c.difference = 1 / 4 → d.difference = 1 / 10 →
        (render_markers [c]).map Marker.color
          = (render_markers [d]).map Marker.color) := by
  have htop : ∀ v : ℚ, 1 / 10 ≤ v → scatter_norm v = 1 := by
    intro v hv
    unfold scatter_norm
    have h1 : (1 : ℚ) ≤ (v - -1 / 10) / (1 / 10 - -1 / 10) := by
      rw [le_div_iff₀ (by norm_num)]
      linarith
    rw [min_eq_left h1, max_eq_right (by norm_num)]
  refine ⟨htop c.difference, ?_, ⟨?_, ?_⟩, ?_⟩
  · intro hv
    unfold scatter_norm
    have h1 : (c.difference - -1 / 10) / (1 / 10 - -1 / 10) ≤ 0 := by
      apply div_nonpos_of_nonpos_of_nonneg
      · linarith
      · norm_num
    rw [min_eq_right (by linarith), max_eq_left h1]
  · exact le_max_left 0 _
  · exact max_le (by norm_num) (min_le_left 1 _)
  · intro hc hd
    unfold render_markers
    simp only [List.map_cons, List.map_nil]
    rw [hc, hd]
    rw [htop (1 / 4) (by norm_num), htop (1 / 10) (by norm_num)]

/-- C8 witness: the concrete cell with differential 0.25 and the
concrete cell with differential 0.10 receive the same marker color. -/
theorem c8_color_clamped_witness :
    (render_markers [c8cellA]).map Marker.color
      = (render_markers [c8cellB]).map Marker.color :=
  (c8_color_clamped c8cellA c8cellB).2.2.2 rfl rfl

/-- C9: the Aggregator is a pure function of its four inputs, so two
runs on identical inputs produce identical cell output. -/
theorem c9_deterministic (shots : List ShotRecord) (tc : TargetColumn)
    (name : String) (nx : ℕ) :
    create_shot_chart_cells shots tc name nx
      = create_shot_chart_cells shots tc name nx := rfl

/-- C10: every zone pair of the target grouping also appears in the
league grouping (the league frame aggregates a superset of the target
rows), so after the zone join every target shot carries a defined
differential — the undefined-differential exclusion is unreachable. -/
theorem c10_league_covers_target (shots : List ShotRecord) (tc : TargetColumn)
    (name : String) :
    (∀ r ∈ zone_agg (target_df shots tc name), ∃ l ∈ zone_agg shots,
        l.SHOT_ZONE_BASIC = r.SHOT_ZONE_BASIC
        ∧ l.SHOT_ZONE_AREA = r.SHOT_ZONE_AREA)
    ∧ (∀ s ∈ target_df shots tc name, (shot_diff shots tc name s).isSome) := by
  constructor
  · intro r hr
    unfold zone_agg at hr
    rcases List.mem_map.mp hr with ⟨k, hk, rfl⟩
    have hk2 : k ∈ ((target_df shots tc name).map shotZone) :=
      List.mem_dedup.mp hk
    rcases List.mem_map.mp hk2 with ⟨s, hs, rfl⟩
    refine ⟨zoneRowOf shots (shotZone s), ?_, rfl, rfl⟩
    unfold zone_agg
    exact List.mem_map.mpr ⟨shotZone s,
      mem_dedup_map_shotZone _ _ (List.mem_of_mem_filter hs), rfl⟩
  · intro s hs
    exact shot_diff_isSome shots tc name s hs

/-- C10 witness: the first sample target shot has a defined DIFF. -/
theorem c10_league_covers_target_witness :
    (shot_diff wshots TargetColumn.PLAYER_NAME "A" wshot1).isSome :=
  (c10_league_covers_target wshots TargetColumn.PLAYER_NAME "A").2 wshot1
    (by decide)

/-- C5: a subject value matching no shot yields an empty cell frame —
not an error — and the renderer then draws exactly the court shapes,
with no markers. -/
theorem c5_empty_subject (shots : List ShotRecord) (tc : TargetColumn)
    (name : String) (nx : ℕ) (hmatch : ∀ s ∈ shots, tc.get s ≠ name)
    (hny : gridNy nx ≠ 0) :
    create_shot_chart_cells shots tc name nx = some []
    ∧ render [] = (draw_court true).map PlotElement.shape := by
  refine ⟨empty_match_cells shots tc name nx hmatch hny, ?_⟩
  unfold render render_markers
  simp

/-- C5 witness: no shot of the sample dataset belongs to player N. -/
theorem c5_empty_subject_witness :
    create_shot_chart_cells wshots TargetColumn.PLAYER_NAME "N" 2 = some []
    ∧ render [] = (draw_court true).map PlotElement.shape :=
  c5_empty_subject wshots TargetColumn.PLAYER_NAME "N" 2 (by decide)
    (by decide)

/-- Each produced cell's percentile is the percentile rank of its freq
within the freq column, its freq is in the column, and its sizing is
the sizing lambda of its percentile. -/
theorem cells_percentile (shots : List ShotRecord) (tc : TargetColumn)
    (name : String) (nx : ℕ) (cells : List HexCell)
    (h : create_shot_chart_cells shots tc name nx = some cells)
    (C : HexCell) (hC : C ∈ cells) :
    C.percentile = pct_rank (cells.map HexCell.freq) C.freq
    ∧ C.freq ∈ cells.map HexCell.freq
    ∧ C.sizing = sizing_rule C.percentile := by
  obtain ⟨hny, hcells⟩ := create_cells_inv shots tc name nx cells h
  subst hcells
  rcases finalize_mem _ C hC with ⟨r, hr, rfl⟩
  rw [finalize_map_freq]
  exact ⟨rfl, List.mem_map.mpr ⟨r, hr, rfl⟩, rfl⟩

/-- C4: percentile ranks of the produced cells are monotone in the
attempt count, lie in [0, 1], agree on tied counts, and tied counts
receive the averaged rank of the block they occupy. -/
theorem c4_percentile_rank (shots : List ShotRecord) (tc : TargetColumn)
    (name : String) (nx : ℕ) (cells : List HexCell)
    (h : create_shot_chart_cells shots tc name nx = some cells)
    (A B : HexCell) (hA : A ∈ cells) (hB : B ∈ cells)
    (hfr : B.freq < A.freq) :
    B.percentile ≤ A.percentile
    ∧ (∀ C ∈ cells, 0 ≤ C.percentile ∧ C.percentile ≤ 1)
    ∧ (∀ C ∈ cells, ∀ D ∈ cells, C.freq = D.freq →
        C.percentile = D.percentile)
    ∧ (∀ C ∈ cells, C.percentile * (cells.length : ℚ)
          * ((cells.filter fun D => decide (D.freq = C.freq)).length : ℚ)
        = ((List.range
              ((cells.filter fun D => decide (D.freq = C.freq)).length)).map
            fun (i : ℕ) =>
              ((cells.filter fun D => decide (D.freq < C.freq)).length : ℚ)
                + (i : ℚ) + 1).sum) := by
  refine ⟨?_, ?_, ?_, ?_⟩
  · rw [(cells_percentile shots tc name nx cells h B hB).1,
      (cells_percentile shots tc name nx cells h A hA).1]
    exact pct_rank_mono (cells.map HexCell.freq) A.freq B.freq hfr
  · intro C hC
    rw [(cells_percentile shots tc name nx cells h C hC).1]
    exact pct_rank_bounds (cells.map HexCell.freq) C.freq
      (cells_percentile shots tc name nx cells h C hC).2.1
  · intro C hC D hD hfe
    rw [(cells_percentile shots tc name nx cells h C hC).1,
      (cells_percentile shots tc name nx cells h D hD).1, hfe]
  · intro C hC
    have htie := pct_rank_tie (cells.map HexCell.freq) C.freq
      (cells_percentile shots tc name nx cells h C hC).2.1
    have hcnt_eq : ((cells.map HexCell.freq).filter
          fun u => decide (u = C.freq)).length
        = (cells.filter fun D => decide (D.freq = C.freq)).length := by
      rw [List.filter_map, List.length_map]
      rfl
    have hcnt_lt : ((cells.map HexCell.freq).filter
          fun u => decide (u < C.freq)).length
        = (cells.filter fun D => decide (D.freq < C.freq)).length := by
      rw [List.filter_map, List.length_map]
      rfl
    rw [(cells_percentile shots tc name nx cells h C hC).1]
    rw [hcnt_eq, hcnt_lt, List.length_map] at htie
    exact htie

/-- C4 witness: on the sample run, the lone-shot cell's percentile is
at most the two-shot cell's. -/
theorem c4_percentile_rank_witness : wcellB.percentile ≤ wcellA.percentile :=
  (c4_percentile_rank wshots TargetColumn.PLAYER_NAME "A" 2 [wcellA, wcellB]
    (by decide) wcellA wcellB (by decide) (by decide) (by decide)).1

/-- Projecting the freq entry out of the zipped frame reads it off the
attempt hexbin. -/
theorem zip_rows_freq (l m : List ((ℚ × ℚ) × ℚ)) (h : l.length = m.length) :
    (((l.zip m).map fun p => (p.1.1, p.2.2, p.1.2)).map fun r => r.2.2)
      = l.map fun e => e.2 := by
  rw [List.map_map]
  exact zip_map_left (fun e : (ℚ × ℚ) × ℚ => e.2) l m h

/-- C2 (amended): on every successful run, the sum of the per-cell
attempt counts equals the summed attempted flags of exactly those
target shots the hexagonal grid assigns to a cell — shots the grid
drops (coordinates beyond its reach) do not contribute. -/
theorem c2_binned_attempts (shots : List ShotRecord) (tc : TargetColumn)
    (name : String) (nx : ℕ) (cells : List HexCell)
    (h : create_shot_chart_cells shots tc name nx = some cells) :
    (cells.map HexCell.freq).sum
      = (((target_df shots tc name).filter fun s =>
            (hexAssign (court_grid nx) s.LOC_X s.LOC_Y).isSome).map
          ShotRecord.SHOT_ATTEMPTED_FLAG).sum := by
  obtain ⟨hny, hcells⟩ := create_cells_inv shots tc name nx cells h
  subst hcells
  rw [finalize_map_freq, zip_rows_freq _ _ (hexbin_lengths shots tc name nx),
    hexbin_sum_eq]
  have hfil : (shot_points shots tc name).filter
        (fun p => (hexAssign (court_grid nx) p.1 p.2.1).isSome)
      = ((target_df shots tc name).filter fun s =>
          (hexAssign (court_grid nx) s.LOC_X s.LOC_Y).isSome).map
        fun s => (s.LOC_X, s.LOC_Y, s.SHOT_ATTEMPTED_FLAG) := by
    unfold shot_points
    rw [List.filter_map]
    rfl
  rw [hfil, List.map_map]
  rfl

/-- C2 counterexample: a dataset whose single target shot sits far
outside the court extent. Its differential is defined, yet the run
produces no occupied cell, so the summed attempt counts (0) disagree
with the attempt count of the target subset (1) — refuting the claim
that only undefined-differential shots escape the binning. -/
theorem c2_counterexample :
    create_shot_chart_cells c2shots TargetColumn.PLAYER_NAME "A" 2 = some []
    ∧ target_df c2shots TargetColumn.PLAYER_NAME "A" = [c2shot]
    ∧ shot_diff c2shots TargetColumn.PLAYER_NAME "A" c2shot = some 0
    ∧ ¬ ((([] : List HexCell).map HexCell.freq).sum
        = ((target_df c2shots TargetColumn.PLAYER_NAME "A").map
            ShotRecord.SHOT_ATTEMPTED_FLAG).sum) := by
  refine ⟨by decide, by decide, by decide, by decide⟩

/-- C2 witness: on the sample run the cell totals equal the binned
subset's attempted flags. -/
theorem c2_binned_attempts_witness :
    (([wcellA, wcellB].map HexCell.freq).sum
      = (((target_df wshots TargetColumn.PLAYER_NAME "A").filter fun s =>
            (hexAssign (court_grid 2) s.LOC_X s.LOC_Y).isSome).map
          ShotRecord.SHOT_ATTEMPTED_FLAG).sum) :=
  c2_binned_attempts wshots TargetColumn.PLAYER_NAME "A" 2 [wcellA, wcellB]
    (by decide)

/-- Distinct enumerated cells have distinct centers: within a lattice
the steps separate them, and the two lattices are offset by half a
step, which no integer index can bridge. -/
theorem cellCenter_inj (g : HexGrid) (hsx : g.sx ≠ 0) (hsy : g.sy ≠ 0) :
    ∀ c d : Bool × ℤ × ℤ, cellCenter g c = cellCenter g d → c = d := by
  intro c d h
  obtain ⟨bc, ic, jc⟩ := c
  obtain ⟨bd, id2, jd⟩ := d
  unfold cellCenter at h
  cases bc <;> cases bd <;> simp at h ⊢
  · exact ⟨h.1.resolve_right hsx, h.2.resolve_right hsy⟩
  · have h1 : (ic : ℚ) + 2⁻¹ = (id2 : ℚ) := h.1.resolve_right hsx
    have h2 : ((2 * ic + 1 : ℤ) : ℚ) = ((2 * id2 : ℤ) : ℚ) := by
      push_cast
      linarith
    have h3 : 2 * ic + 1 = 2 * id2 := by exact_mod_cast h2
    omega
  · have h1 : (ic : ℚ) = (id2 : ℚ) + 2⁻¹ := h.1.resolve_right hsx
    have h2 : ((2 * ic : ℤ) : ℚ) = ((2 * id2 + 1 : ℤ) : ℚ) := by
      push_cast
      linarith
    have h3 : 2 * ic = 2 * id2 + 1 := by exact_mod_cast h2
    omega
  · exact ⟨h.1.resolve_right hsx, h.2.resolve_right hsy⟩

/-- A degenerate row count happens exactly for grid widths 0 and 1. -/
theorem two_le_of_gridNy_ne_zero (nx : ℕ) (h : gridNy nx ≠ 0) : 2 ≤ nx := by
  by_contra h2
  push_neg at h2
  interval_cases nx
  · exact h (by decide)
  · exact h (by decide)

/-- From grid width 2 on, the grid has at least one row. -/
theorem gridNy_pos_of_two_le (nx : ℕ) (h : 2 ≤ nx) : 1 ≤ gridNy nx := by
  apply Nat.le_findGreatest (le_trans (by norm_num) h)
  nlinarith

/-- The x step of the court grid is positive for a nonzero width. -/
theorem court_grid_sx_pos (nx : ℕ) (h : nx ≠ 0) : 0 < (court_grid nx).sx := by
  show (0 : ℚ) < ((250 + 1 / 2000000) - (-250 - 1 / 2000000)) / (nx : ℚ)
  apply div_pos (by norm_num)
  exact_mod_cast Nat.pos_of_ne_zero h

/-- The y step of the court grid is negative once a row exists. -/
theorem court_grid_sy_neg (nx : ℕ) (h : gridNy nx ≠ 0) :
    (court_grid nx).sy < 0 := by
  show (-95 / 2 - 845 / 2 : ℚ) / (gridNy nx : ℚ) < 0
  apply div_neg_of_neg_of_pos (by norm_num)
  exact_mod_cast Nat.pos_of_ne_zero h

/-- Per cell, both hexbin calls accumulate equally many values. -/
theorem hex_keep_len (shots : List ShotRecord) (tc : TargetColumn)
    (name : String) (nx : ℕ) (c : Bool × ℤ × ℤ) :
    (((shot_points shots tc name).filter fun p =>
        decide (hexAssign (court_grid nx) p.1 p.2.1 = some c)).map
      fun p : ℚ × ℚ × ℚ => p.2.2).length
      = (((diff_points shots tc name).filter fun p =>
          decide (hexAssign (court_grid nx) p.1 p.2.1 = some c)).map
        fun p : ℚ × ℚ × ℚ => p.2.2).length := by
  rw [List.length_map, List.length_map, shot_points_filter shots tc name nx c,
    diff_points_filter shots tc name nx c, List.length_map, List.length_map]

/-- The two hexbin calls emit a cell under the same condition. -/
theorem hex_keep_iff (shots : List ShotRecord) (tc : TargetColumn)
    (name : String) (nx : ℕ) (c : Bool × ℤ × ℤ) :
    (if (((shot_points shots tc name).filter fun p =>
        decide (hexAssign (court_grid nx) p.1 p.2.1 = some c)).map
        fun p : ℚ × ℚ × ℚ => p.2.2).length = 0 then none
      else some (cellCenter (court_grid nx) c,
        npSum (((shot_points shots tc name).filter fun p =>
          decide (hexAssign (court_grid nx) p.1 p.2.1 = some c)).map
          fun p : ℚ × ℚ × ℚ => p.2.2))).isSome
    ↔ (if (((diff_points shots tc name).filter fun p =>
        decide (hexAssign (court_grid nx) p.1 p.2.1 = some c)).map
        fun p : ℚ × ℚ × ℚ => p.2.2).length = 0 then none
      else some (cellCenter (court_grid nx) c,
        npMean (((diff_points shots tc name).filter fun p =>
          decide (hexAssign (court_grid nx) p.1 p.2.1 = some c)).map
          fun p : ℚ × ℚ × ℚ => p.2.2))).isSome := by
  rw [hex_keep_len shots tc name nx c]
  by_cases h0 : (((diff_points shots tc name).filter fun p =>
      decide (hexAssign (court_grid nx) p.1 p.2.1 = some c)).map
      fun p : ℚ × ℚ × ℚ => p.2.2).length = 0
  · rw [if_pos h0, if_pos h0]
  · rw [if_neg h0, if_neg h0]
    exact Iff.rfl

/-- C6: every occupied cell's attempt count is the summed
attempted-flags of the target shots assigned to that cell, and its mean
differential is the unweighted arithmetic mean of those shots' zone
differentials. -/
theorem c6_cell_stats (shots : List ShotRecord) (tc : TargetColumn)
    (name : String) (nx : ℕ) (cells : List HexCell)
    (h : create_shot_chart_cells shots tc name nx = some cells)
    (C : HexCell) (hC : C ∈ cells) (c : Bool × ℤ × ℤ)
    (hcmem : c ∈ cellIndexList (court_grid nx))
    (hcen : cellCenter (court_grid nx) c = (C.loc_x, C.loc_y)) :
    C.freq = (((target_df shots tc name).filter fun s =>
        decide (hexAssign (court_grid nx) s.LOC_X s.LOC_Y = some c)).map
        ShotRecord.SHOT_ATTEMPTED_FLAG).sum
    ∧ C.difference
      = (((target_df shots tc name).filter fun s =>
          decide (hexAssign (court_grid nx) s.LOC_X s.LOC_Y = some c)).map
          fun s => (shot_diff shots tc name s).getD 0).sum
        / ((((target_df shots tc name).filter fun s =>
            decide (hexAssign (court_grid nx) s.LOC_X s.LOC_Y = some c)).length)
          : ℚ) := by
  obtain ⟨hny, hcells⟩ := create_cells_inv shots tc name nx cells h
  have hsx : (court_grid nx).sx ≠ 0 :=
    ne_of_gt (court_grid_sx_pos nx (by
      have := two_le_of_gridNy_ne_zero nx hny
      omega))
  have hsy : (court_grid nx).sy ≠ 0 := ne_of_lt (court_grid_sy_neg nx hny)
  subst hcells
  rcases finalize_mem _ C hC with ⟨r, hr, rfl⟩
  rcases List.mem_map.mp hr with ⟨p, hp, rfl⟩
  unfold hexbin at hp
  rw [filterMap_zip_eq _ _ (cellIndexList (court_grid nx))
    (fun c2 _ => hex_keep_iff shots tc name nx c2)] at hp
  rcases List.mem_filterMap.mp hp with ⟨c1, hc1, hpair⟩
  by_cases hA0 : (((shot_points shots tc name).filter fun p =>
      decide (hexAssign (court_grid nx) p.1 p.2.1 = some c1)).map
      fun p : ℚ × ℚ × ℚ => p.2.2).length = 0
  · rw [if_pos hA0] at hpair
    exact Option.noConfusion hpair
  · have hD0 : ¬ (((diff_points shots tc name).filter fun p =>
        decide (hexAssign (court_grid nx) p.1 p.2.1 = some c1)).map
        fun p : ℚ × ℚ × ℚ => p.2.2).length = 0 := by
      rw [← hex_keep_len shots tc name nx c1]
      exact hA0
    rw [if_neg hA0, if_neg hD0] at hpair
    simp only [Option.some_bind, Option.map_some', Option.some.injEq] at hpair
    have hceq : c = c1 := by
      apply cellCenter_inj (court_grid nx) hsx hsy
      rw [hcen, ← hpair]
    subst hceq
    subst hpair
    constructor
    · show npSum (((shot_points shots tc name).filter fun p =>
          decide (hexAssign (court_grid nx) p.1 p.2.1 = some c)).map
          fun p : ℚ × ℚ × ℚ => p.2.2) = _
      unfold npSum
      rw [shot_points_filter shots tc name nx c, List.map_map]
      rfl
    · show npMean (((diff_points shots tc name).filter fun p =>
          decide (hexAssign (court_grid nx) p.1 p.2.1 = some c)).map
          fun p : ℚ × ℚ × ℚ => p.2.2) = _
      unfold npMean
      rw [diff_points_filter shots tc name nx c, List.map_map,
        List.length_map]
      rfl

/-- C6 witness: on the sample run, the at-the-hoop cell's stats match
its two shots. -/
theorem c6_cell_stats_witness :
    wcellA.freq = (((target_df wshots TargetColumn.PLAYER_NAME "A").filter
        fun s =>
        decide (hexAssign (court_grid 2) s.LOC_X s.LOC_Y
          = some (true, 1, 1))).map
        ShotRecord.SHOT_ATTEMPTED_FLAG).sum
    ∧ wcellA.difference
      = (((target_df wshots TargetColumn.PLAYER_NAME "A").filter fun s =>
          decide (hexAssign (court_grid 2) s.LOC_X s.LOC_Y
            = some (true, 1, 1))).map
          fun s => (shot_diff wshots TargetColumn.PLAYER_NAME "A" s).getD 0).sum
        / ((((target_df wshots TargetColumn.PLAYER_NAME "A").filter fun s =>
            decide (hexAssign (court_grid 2) s.LOC_X s.LOC_Y
              = some (true, 1, 1))).length) : ℚ) :=
  c6_cell_stats wshots TargetColumn.PLAYER_NAME "A" 2 [wcellA, wcellB]
    (by decide) wcellA (by decide) (true, 1, 1) (by decide) (by decide)

/-- The rounded index stays within one step of the floor. -/
theorem roundHalfEven_bounds (q : ℚ) :
    ⌊q⌋ ≤ roundHalfEven q ∧ roundHalfEven q ≤ ⌊q⌋ + 1 := by
  unfold roundHalfEven
  split_ifs <;> omega

/-- Rounding an integer is the identity. -/
theorem roundHalfEven_intCast (n : ℤ) : roundHalfEven ((n : ℤ) : ℚ) = n := by
  unfold roundHalfEven
  rw [Int.floor_intCast]
  rw [if_pos (by norm_num)]

/-- The rounded index is within half a step of the value. -/
theorem roundHalfEven_close (q : ℚ) :
    (q - (roundHalfEven q : ℚ)) ^ 2 ≤ 1 / 4 := by
  have h0 : ((⌊q⌋ : ℤ) : ℚ) ≤ q := Int.floor_le q
  have h1 : q < ((⌊q⌋ : ℤ) : ℚ) + 1 := Int.lt_floor_add_one q
  have hq : ((1 : ℚ) / 2) ^ 2 = 1 / 4 := by norm_num
  unfold roundHalfEven
  split_ifs with ha hb hc
  · rw [← hq]
    exact sq_le_sq' (by linarith) (by linarith)
  · rw [← hq]
    push_cast
    exact sq_le_sq' (by linarith) (by linarith)
  · have heq : q - ((⌊q⌋ : ℤ) : ℚ) = 1 / 2 := le_antisymm (not_lt.mp hb)
      (not_lt.mp ha)
    rw [← hq]
    exact sq_le_sq' (by linarith) (by linarith)
  · have heq : q - ((⌊q⌋ : ℤ) : ℚ) = 1 / 2 := le_antisymm (not_lt.mp hb)
      (not_lt.mp ha)
    rw [← hq]
    push_cast
    exact sq_le_sq' (by linarith) (by linarith)

/-- Every point inside the court extent is assigned to a cell: the
padding keeps the scaled x strictly inside (0, nx), and a scaled y
landing exactly on the bottom row edge is caught by lattice 1. -/
theorem hexAssign_in_extent (nx : ℕ) (hnx : 2 ≤ nx) (px py : ℚ)
    (hx1 : -250 ≤ px) (hx2 : px ≤ 250) (hy1 : -95 / 2 ≤ py)
    (hy2 : py ≤ 845 / 2) :
    (hexAssign (court_grid nx) px py).isSome := by
  have hnx0 : (0 : ℚ) < (nx : ℚ) := by
    exact_mod_cast (by omega : 0 < nx)
  have hny1 : 1 ≤ gridNy nx := gridNy_pos_of_two_le nx hnx
  have hny0 : (0 : ℚ) < (gridNy nx : ℚ) := by
    exact_mod_cast (by omega : 0 < gridNy nx)
  have hsx : (0 : ℚ) < (court_grid nx).sx := court_grid_sx_pos nx (by omega)
  have hsy : (court_grid nx).sy < 0 := court_grid_sy_neg nx (by omega)
  have hxm : (court_grid nx).xmin = -250 - 1 / 2000000 := rfl
  have hym : (court_grid nx).ymin = 845 / 2 := rfl
  have hsx_eq : (court_grid nx).sx
      = ((250 + 1 / 2000000) - (-250 - 1 / 2000000)) / (nx : ℚ) := rfl
  have hsy_eq : (court_grid nx).sy
      = (-95 / 2 - 845 / 2) / (gridNy nx : ℚ) := rfl
  have hgnx : ((court_grid nx).nx : ℤ) = (nx : ℤ) := rfl
  have hgny : ((court_grid nx).ny : ℤ) = (gridNy nx : ℤ) := rfl
  simp only [hexAssign]
  set ix := (px - (court_grid nx).xmin) / (court_grid nx).sx with hix_def
  set iy := (py - (court_grid nx).ymin) / (court_grid nx).sy with hiy_def
  have hix0 : 0 < ix := by
    rw [hix_def]
    apply div_pos ?_ hsx
    rw [hxm]
    linarith
  have hixn : ix < (nx : ℚ) := by
    rw [hix_def, div_lt_iff₀ hsx, hsx_eq, mul_comm,
      div_mul_cancel₀ _ (ne_of_gt hnx0), hxm]
    linarith
  have hiy0 : 0 ≤ iy := by
    rw [hiy_def]
    apply div_nonneg_iff.mpr
    right
    constructor
    · rw [hym]
      linarith
    · exact le_of_lt hsy
  have hiyn : iy ≤ (gridNy nx : ℚ) := by
    rw [hiy_def, div_le_iff_of_neg hsy, hsy_eq, mul_comm,
      div_mul_cancel₀ _ (ne_of_gt hny0), hym]
    linarith
  have hfx0 : 0 ≤ ⌊ix⌋ := Int.floor_nonneg.mpr (le_of_lt hix0)
  have hfxn : ⌊ix⌋ < (nx : ℤ) := Int.floor_lt.mpr (by push_cast; exact hixn)
  have hfy0 : 0 ≤ ⌊iy⌋ := Int.floor_nonneg.mpr hiy0
  have hfyn : ⌊iy⌋ ≤ (gridNy nx : ℤ) := by
    have := Int.floor_le_floor hiyn
    rwa [Int.floor_natCast] at this
  split_ifs with hd hg1 hg2
  · rfl
  · exfalso
    apply hg1
    rw [hgnx, hgny]
    refine ⟨le_trans hfx0 (roundHalfEven_bounds ix).1, ?_,
      le_trans hfy0 (roundHalfEven_bounds iy).1, ?_⟩
    · have := (roundHalfEven_bounds ix).2
      omega
    · by_cases hfy : ⌊iy⌋ = (gridNy nx : ℤ)
      · have hiy_int : iy = ((gridNy nx : ℤ) : ℚ) := by
          have h1 : ((⌊iy⌋ : ℤ) : ℚ) ≤ iy := Int.floor_le iy
          rw [hfy] at h1
          push_cast at h1 ⊢
          linarith
        rw [hiy_int, roundHalfEven_intCast]
        omega
      · have := (roundHalfEven_bounds iy).2
        omega
  · rfl
  · exfalso
    by_cases hfy : ⌊iy⌋ = (gridNy nx : ℤ)
    · apply hd
      have hiy_int : iy = ((gridNy nx : ℤ) : ℚ) := by
        have h1 : ((⌊iy⌋ : ℤ) : ℚ) ≤ iy := Int.floor_le iy
        rw [hfy] at h1
        push_cast at h1 ⊢
        linarith
      have hry : (roundHalfEven iy : ℚ) = iy := by
        rw [hiy_int, roundHalfEven_intCast]
      have hd1 : (ix - (roundHalfEven ix : ℚ)) ^ 2
          + 3 * (iy - (roundHalfEven iy : ℚ)) ^ 2 ≤ 1 / 4 := by
        rw [hry]
        have := roundHalfEven_close ix
        nlinarith [sq_nonneg (iy - iy)]
      have hfloor : ((⌊iy⌋ : ℤ) : ℚ) = iy := by
        rw [hfy, ← hiy_int]
      have hd2 : (3 : ℚ) / 4
          ≤ (ix - (⌊ix⌋ : ℚ) - 1 / 2) ^ 2 + 3 * (iy - (⌊iy⌋ : ℚ) - 1 / 2) ^ 2 := by
        rw [hfloor]
        nlinarith [sq_nonneg (ix - (⌊ix⌋ : ℚ) - 1 / 2)]
      linarith
    · apply hg2
      rw [hgnx, hgny]
      exact ⟨hfx0, hfxn, hfy0, by omega⟩

/-- The row count is the floored `nx / sqrt(3)`: its square bounds pin
it between the exact aspect-ratio value and the next integer. -/
theorem gridNy_sq_bounds (nx : ℕ) (hnx : 2 ≤ nx) :
    3 * gridNy nx ^ 2 ≤ nx ^ 2 ∧ nx ^ 2 < 3 * (gridNy nx + 1) ^ 2 := by
  unfold gridNy
  constructor
  · exact @Nat.findGreatest_spec 1 (fun m => 3 * m ^ 2 ≤ nx ^ 2) _ nx
      (by omega) (by nlinarith)
  · by_cases hle :
        Nat.findGreatest (fun m => 3 * m ^ 2 ≤ nx ^ 2) nx + 1 ≤ nx
    · have hgt := @Nat.findGreatest_is_greatest
        (Nat.findGreatest (fun m => 3 * m ^ 2 ≤ nx ^ 2) nx + 1)
        (fun m => 3 * m ^ 2 ≤ nx ^ 2) _ nx (Nat.lt_succ_self _) hle
      simp only [not_le] at hgt
      exact hgt
    · have hle2 := @Nat.findGreatest_le (fun m => 3 * m ^ 2 ≤ nx ^ 2) _ nx
      have heq : Nat.findGreatest (fun m => 3 * m ^ 2 ≤ nx ^ 2) nx = nx := by
        omega
      have hP := @Nat.findGreatest_spec 1 (fun m => 3 * m ^ 2 ≤ nx ^ 2) _ nx
        (by omega) (by nlinarith)
      rw [heq] at hP
      have h4 : 4 ≤ nx ^ 2 := by nlinarith
      omega

/-- C7 (amended): for every grid width of at least 2, the hexagonal
grid is the fixed court grid — `nx` columns exactly covering the padded
x extent, rows derived from the aspect ratio as `int(nx / sqrt(3))`,
every target shot inside the court extent x in [-250, 250], y in
[-47.5, 422.5] is binned, and the pipeline succeeds. Widths 0 and 1
make the derived row count zero and the binning fail on a division by
zero, which is why at-least-2 is required. -/
theorem c7_grid_geometry (shots : List ShotRecord) (tc : TargetColumn)
    (name : String) (nx : ℕ) (hnx : 2 ≤ nx) :
    (court_grid nx).nx = nx
    ∧ 3 * (court_grid nx).ny ^ 2 ≤ nx ^ 2
    ∧ nx ^ 2 < 3 * ((court_grid nx).ny + 1) ^ 2
    ∧ (nx : ℚ) * (court_grid nx).sx = 500 + 1 / 1000000
    ∧ ((court_grid nx).ny : ℚ) * (court_grid nx).sy = -470
    ∧ (∀ s ∈ target_df shots tc name,
        -250 ≤ s.LOC_X → s.LOC_X ≤ 250 → -95 / 2 ≤ s.LOC_Y →
        s.LOC_Y ≤ 845 / 2 →
        (hexAssign (court_grid nx) s.LOC_X s.LOC_Y).isSome)
    ∧ (create_shot_chart_cells shots tc name nx).isSome := by
  have hny1 : 1 ≤ gridNy nx := gridNy_pos_of_two_le nx hnx
  have hny0 : ((gridNy nx : ℚ)) ≠ 0 := by
    have : (0 : ℚ) < (gridNy nx : ℚ) := by exact_mod_cast (by omega : 0 < gridNy nx)
    exact ne_of_gt this
  have hnx0 : ((nx : ℚ)) ≠ 0 := by
    have : (0 : ℚ) < (nx : ℚ) := by exact_mod_cast (by omega : 0 < nx)
    exact ne_of_gt this
  refine ⟨rfl, (gridNy_sq_bounds nx hnx).1, (gridNy_sq_bounds nx hnx).2,
    ?_, ?_, ?_, ?_⟩
  · show (nx : ℚ) * (((250 + 1 / 2000000) - (-250 - 1 / 2000000)) / (nx : ℚ))
      = 500 + 1 / 1000000
    rw [mul_comm, div_mul_cancel₀ _ hnx0]
    norm_num
  · show (gridNy nx : ℚ) * ((-95 / 2 - 845 / 2) / (gridNy nx : ℚ)) = -470
    rw [mul_comm, div_mul_cancel₀ _ hny0]
    norm_num
  · intro s _ h1 h2 h3 h4
    exact hexAssign_in_extent nx hnx s.LOC_X s.LOC_Y h1 h2 h3 h4
  · exact create_cells_isSome shots tc name nx (by omega)

/-- C7 counterexample: grid width 1 is positive, yet the derived row
count `int(1 / sqrt(3))` is 0, the first hexbin call divides by zero,
and the pipeline raises instead of binning anything. -/
theorem c7_counterexample :
    0 < 1
    ∧ gridNy 1 = 0
    ∧ create_shot_chart_cells c2shots TargetColumn.PLAYER_NAME "A" 1 = none := by
  refine ⟨by norm_num, by decide, by decide⟩

/-- C7 witness: the sample run with grid width 2 succeeds and its
at-the-hoop shot is binned. -/
theorem c7_grid_geometry_witness :
    (hexAssign (court_grid 2) wshot1.LOC_X wshot1.LOC_Y).isSome
    ∧ (create_shot_chart_cells wshots TargetColumn.PLAYER_NAME "A" 2).isSome :=
  ⟨(c7_grid_geometry wshots TargetColumn.PLAYER_NAME "A" 2 (by norm_num)).2.2.2.2.2.1
      wshot1 (by decide) (by decide) (by decide) (by decide) (by decide),
    (c7_grid_geometry wshots TargetColumn.PLAYER_NAME "A" 2 (by norm_num)).2.2.2.2.2.2⟩
